import Mathlib

set_option maxHeartbeats 1000000

/-!
Shallow embedding of the bounds-inference engine of 3C/HandlERR
(`clang/include/clang/3C/AVarBoundsInfo.h`) and of the DetectERR expression
utilities (`clang/lib/DetectERR/Utils.cpp`).

The repository ships only the header `AVarBoundsInfo.h` for the engine: the
member functions (`getBounds`, `mergeBounds`, `keepHighestPriorityBounds`,
`performWorkListInference`, the `getVariable` family, ...) are declared there
but their definitions are not part of the sources.  Those operations are
therefore modelled from the specification; each such definition carries a doc
comment starting with `Modelled from the spec:`.  `Utils.cpp` is present in
full and is embedded directly from its source.
-/

/-- `BoundsKey`: opaque, densely allocated non-zero integer identifier
(spec §3); allocation is monotonic, so "registered earlier" coincides with
numeric order on keys. -/
abbrev BoundsKey := Nat

/-- Modelled from the spec: `ABounds` (the header `ABounds.h` is not under
`src/`).  Spec §3 "Bound": a tagged value, one of Count(K), CountPlusOne(K),
ByteCount(K), Range(Lower, Upper) over `BoundsKey`s, compared for structural
equality. -/
inductive ABounds : Type
  | Count (k : BoundsKey)
  | CountPlusOne (k : BoundsKey)
  | ByteCount (k : BoundsKey)
  | Range (lo hi : BoundsKey)
deriving DecidableEq, Repr

/-- `BoundsPriority` from `AVarBoundsInfo.h` (lines 83-90): Declared is the
highest priority, then Allocator, FlowInferred, Heuristics; `Invalid` is the
sentinel. -/
inductive BoundsPriority : Type
  | Declared
  | Allocator
  | FlowInferred
  | Heuristics
  | Invalid
deriving DecidableEq, Repr

/-- The numeric value each enumerator has in the C++ `enum BoundsPriority`
(`Declared = 1`, the rest consecutive); smaller number = higher priority. -/
def BoundsPriority.rank : BoundsPriority → Nat
  | .Declared => 1
  | .Allocator => 2
  | .FlowInferred => 3
  | .Heuristics => 4
  | .Invalid => 5

/-- `AVarBoundsInfo::PrioList` (header line 303): the list of bounds
priorities in descending order of priority. -/
def PrioList : List BoundsPriority :=
  [.Declared, .Allocator, .FlowInferred, .Heuristics]

/-- The bounds store `AVarBoundsInfo::BInfo` (header lines 311-314):
`std::map<BoundsKey, std::map<BoundsPriority, ABounds *>>`, i.e. per key at
most one bound per priority tier. -/
abbrev BInfoMap := BoundsKey → BoundsPriority → Option ABounds

/-- Point update of one tier of one key of the bounds store. -/
def setTier (S : BInfoMap) (L : BoundsKey) (P : BoundsPriority)
    (B : Option ABounds) : BInfoMap :=
  fun k q => if k = L then (if q = P then B else S k q) else S k q

/-- Modelled from the spec: `AVarBoundsInfo::mergeBounds` (declared at header
line 202; implementation not under `src/`).  Spec §4.3: installs `B` at tier
`P` for key `L`; if an equal bound already exists at that tier it is a no-op,
if a different bound exists the new bound overwrites it, and the returned
flag reports whether anything changed. -/
def mergeBounds (S : BInfoMap) (L : BoundsKey) (P : BoundsPriority)
    (B : ABounds) : BInfoMap × Bool :=
  if S L P = some B then (S, false) else (setTier S L P (some B), true)

/-- Modelled from the spec: `AVarBoundsInfo::getBounds` (declared at header
lines 205-206; implementation not under `src/`).  Spec §4.3: with no explicit
priority (`ReqP = Invalid`) it returns the bound from the highest tier that
has an entry, scanning `PrioList` in priority order; with an explicit tier it
returns exactly that tier's bound or none. -/
def getBounds (S : BInfoMap) (L : BoundsKey) (ReqP : BoundsPriority) :
    Option ABounds :=
  if ReqP = .Invalid then PrioList.findSome? (fun P => S L P) else S L ReqP

/-- The highest-priority tier that has an entry for `L` (the first hit when
scanning `PrioList` in descending priority). -/
def highestPrio (S : BInfoMap) (L : BoundsKey) : Option BoundsPriority :=
  PrioList.find? (fun P => (S L P).isSome)

/-- Modelled from the spec: `AVarBoundsInfo::keepHighestPriorityBounds`
(declared at header lines 380-382; implementation not under `src/`).
Spec §4.3: for every key holding entries at multiple tiers, delete all but
the highest-priority entry. -/
def keepHighestPriorityBounds (S : BInfoMap) : BInfoMap :=
  fun k P => if highestPrio S k = some P then S k P else none

/-- The empty bounds store. -/
def emptyBInfo : BInfoMap := fun _ _ => none

/-! ## Program Variable Registry -/

/-- A persistent source location, the key of `DeclVarMap`
(header line 339): file name, line, column. -/
abbrev PersistentSourceLoc := String × Nat × Nat

/-- `AVarBoundsInfo::ParamDeclType` (header line 194):
`std::tuple<std::string, std::string, bool, unsigned>` — the structural
{context, name, kind, index} tuple keying function parameters. -/
abbrev ParamDeclType := String × String × Bool × Nat

/-- The key type of `FuncDeclVarMap` (header line 343):
`std::tuple<std::string, std::string, bool>` for function return values. -/
abbrev FuncDeclType := String × String × Bool

/-- The declarations relevant to the `getVariable` family (header lines
221-226 list overloads for `VarDecl`, `ParmVarDecl`, `FieldDecl`,
`FunctionDecl`).  `otherDecl` stands for a declaration kind that structurally
cannot carry a bounds key (spec §4.1). -/
inductive CDecl : Type
  | varDecl (psl : PersistentSourceLoc)
  | fieldDecl (psl : PersistentSourceLoc)
  | paramDecl (pd : ParamDeclType)
  | funcDecl (fk : FuncDeclType)
  | otherDecl (psl : PersistentSourceLoc)
deriving DecidableEq, Repr

/-- Modelled from the spec: `AVarBoundsInfo::isValidBoundVariable` (declared
at header line 197; implementation not under `src/`).  Spec §4.1/§7: the
declaration kinds with `getVariable` overloads can carry a bounds key; any
other kind cannot. -/
def isValidBoundVariable : CDecl → Bool
  | .otherDecl _ => false
  | _ => true

/-- Association-list lookup used to model the `BiMap`s of the registry. -/
def assocLookup {α : Type} [DecidableEq α] : List (α × BoundsKey) → α →
    Option BoundsKey
  | [], _ => none
  | (a, k) :: rest, b => if a = b then some k else assocLookup rest b

/-- The registry state of `AVarBoundsInfo`: the key counter `BCount`
(header line 306) and the three declaration-to-key bimaps `DeclVarMap`,
`ParamDeclVarMap`, `FuncDeclVarMap` (header lines 338-343). -/
structure RegState : Type where
  bcount : BoundsKey
  declVarMap : List (PersistentSourceLoc × BoundsKey)
  paramDeclVarMap : List (ParamDeclType × BoundsKey)
  funcDeclVarMap : List (FuncDeclType × BoundsKey)
deriving DecidableEq, Repr

/-- The fresh registry state (constructor at header lines 182-192:
`BCount = 1`, all maps cleared). -/
def initRegState : RegState := ⟨1, [], [], []⟩

/-- Look up the bounds key recorded for a declaration, in the map that keys
its kind (persistent source location for variables and fields, the
structural tuples for parameters and returns). -/
def lookupDecl (s : RegState) : CDecl → Option BoundsKey
  | .varDecl p => assocLookup s.declVarMap p
  | .fieldDecl p => assocLookup s.declVarMap p
  | .paramDecl pd => assocLookup s.paramDeclVarMap pd
  | .funcDecl fk => assocLookup s.funcDeclVarMap fk
  | .otherDecl _ => none

/-- Record a freshly allocated key for a declaration in the map keying its
kind (`insertVarKey` / `insertParamKey`, header lines 367/389). -/
def insertDeclKey (s : RegState) (D : CDecl) (k : BoundsKey) : RegState :=
  match D with
  | .varDecl p => { s with declVarMap := (p, k) :: s.declVarMap }
  | .fieldDecl p => { s with declVarMap := (p, k) :: s.declVarMap }
  | .paramDecl pd => { s with paramDeclVarMap := (pd, k) :: s.paramDeclVarMap }
  | .funcDecl fk => { s with funcDeclVarMap := (fk, k) :: s.funcDeclVarMap }
  | .otherDecl _ => s

/-- Modelled from the spec: the `AVarBoundsInfo::getVariable` family
(declared at header lines 221-226; implementation not under `src/`).
Spec §4.1: assign or retrieve a `BoundsKey` for a declaration, guaranteeing
the same declaration always maps to the same key; a missing declaration gets
the next fresh key (allocation is monotonic, spec §3). -/
def getVariable (s : RegState) (D : CDecl) : BoundsKey × RegState :=
  match lookupDecl s D with
  | some k => (k, s)
  | none =>
    (s.bcount, { insertDeclKey s D s.bcount with bcount := s.bcount + 1 })

/-- Modelled from the spec: the fatal precondition of the `getVariable`
family (header lines 221-222: "These functions will fatal fail if the
provided Decl cannot have a BoundsKey").  The fatal abort is embedded as
`none`; a normal return as `some`. -/
def getVariableChecked (s : RegState) (D : CDecl) :
    Option (BoundsKey × RegState) :=
  if isValidBoundVariable D then some (getVariable s D) else none

/-- Modelled from the spec: `AVarBoundsInfo::tryGetVariable` (declared at
header lines 212-214; implementation not under `src/`).  Spec §4.1: the
non-fatal counterpart, returning a found/not-found result instead of
aborting; a declaration that cannot carry a key is simply "not found". -/
def tryGetVariable (s : RegState) (D : CDecl) : Option BoundsKey :=
  if isValidBoundVariable D then lookupDecl s D else none

/-! ## Inference engine -/

/-- The bounds key a bound expression refers to (spec §3: a bound is
expressed "in terms of another key"; for a range, its lower key).  Since key
allocation is monotonic (spec §3), the numerically smaller referenced key is
the earlier-registered one; this is the tie-break ordering of §4.5. -/
def ABounds.refKey : ABounds → BoundsKey
  | .Count k => k
  | .CountPlusOne k => k
  | .ByteCount k => k
  | .Range lo _ => lo

/-- Modelled from the spec: `AvarBoundsInference::getPreferredBound`
(declared at header line 151; implementation not under `src/`).  Spec §4.5:
among the candidate bounds, each paired with the number of converging
neighbours that proposed it, prefer the bound with the largest vote count,
breaking ties by declaration order (first-registered key wins). -/
def getPreferredBound (cands : List (ABounds × Nat)) : Option ABounds :=
  (cands.foldl
    (fun best c =>
      match best with
      | none => some c
      | some b =>
        if b.2 < c.2 ∨ (b.2 = c.2 ∧ c.1.refKey < b.1.refKey) then some c
        else some b)
    none).map (fun p => p.1)

/-- The vote tally: the distinct bounds proposed by the neighbours, each with
the number of neighbours proposing it. -/
def countVotes (sugg : List ABounds) : List (ABounds × Nat) :=
  sugg.dedup.map (fun b => (b, sugg.count b))

/-- Modelled from the spec: `AvarBoundsInference::predictBounds`' choice of a
bound from the neighbours' proposals (declared at header lines 130-133;
implementation not under `src/`): tally the proposals and pick the preferred
one. -/
def predictBound (sugg : List ABounds) : Option ABounds :=
  getPreferredBound (countVotes sugg)

/-- The dependency graph (`AVarGraph`, header line 346), as ordered adjacency
lists: `g K` are the neighbours of `K` whose values flow into `K`. -/
abbrev AVGraph := BoundsKey → List BoundsKey

/-- The engine state carried across inference iterations: the bounds store
`BInfo`, the terminal set `PointersWithImpossibleBounds` (header line 328),
the set `ArrPointersWithArithmetic` (header line 319), the in-program array
pointers `InProgramArrPtrBoundsKeys` (header line 332) in registration
order, and the potential-bounds candidates (`PotentialBoundsInfo`,
header lines 156-178). -/
structure EngineState : Type where
  binfo : BInfoMap
  impossible : List BoundsKey
  arith : List BoundsKey
  arrPtrs : List BoundsKey
  potBounds : BoundsKey → List BoundsKey

/-- Whether `k` already holds a bound at tier FlowInferred or higher
(spec §4.5: inference targets the array pointers that "currently lack a
FlowInferred-or-higher bound"). -/
def hasFlowOrHigher (S : BInfoMap) (k : BoundsKey) : Bool :=
  ([.Declared, .Allocator, .FlowInferred] : List BoundsPriority).any
    (fun P => (S k P).isSome)

/-- Modelled from the spec: `AVarBoundsInfo::getBoundsNeededArrPointers`
(declared at header line 378; implementation not under `src/`): the
in-program array pointers, in registration order, that still lack a
FlowInferred-or-higher bound and are not classified ImpossibleBounds
(spec §4.5: impossible keys are permanently excluded from candidate
searches). -/
def needsBound (st : EngineState) : List BoundsKey :=
  st.arrPtrs.filter
    (fun k => !hasFlowOrHigher st.binfo k && !(st.impossible.contains k))

/-- The bound proposals `K` receives from its graph neighbours: each
neighbour's effective bound, if it has one (spec §4.5: "from each neighbour
that itself already has a known bound ... predict a bound for K"). -/
def neighbourSuggestions (S : BInfoMap) (g : AVGraph) (K : BoundsKey) :
    List ABounds :=
  (g K).filterMap (fun n => getBounds S n .Invalid)

/-- Modelled from the spec: `AvarBoundsInference::inferBounds` (declared at
header line 109; implementation not under `src/`).  Spec §4.5: predict a
bound for `K` from its neighbours' bounds by majority vote with the
registration-order tie-break; if that fails and the potential-bounds pass is
enabled (`FromPB`), fall back to the candidates recorded for `K` in the
Potential-Bounds Tracker, applying the same rule. -/
def inferBoundsKey (S : BInfoMap) (g : AVGraph)
    (pot : BoundsKey → List BoundsKey) (FromPB : Bool) (K : BoundsKey) :
    Option ABounds :=
  match predictBound (neighbourSuggestions S g K) with
  | some b => some b
  | none =>
    if FromPB then predictBound ((pot K).map (fun c => ABounds.Count c))
    else none

/-- Modelled from the spec: the treatment of one worklist key in one
iteration of `performWorkListInference` (spec §4.5): a successful inference
installs the bound at the FlowInferred tier via `mergeBounds`; a failed
inference for a key known to have pointer arithmetic marks the key
ImpossibleBounds; any other failure is recorded only by the key remaining
unbounded.  All keys of one iteration read the same snapshot store `snap`. -/
def processKey (snap : BInfoMap) (g : AVGraph)
    (pot : BoundsKey → List BoundsKey) (FromPB : Bool) (st : EngineState)
    (K : BoundsKey) : EngineState :=
  match inferBoundsKey snap g pot FromPB K with
  | some b => { st with binfo := (mergeBounds st.binfo K .FlowInferred b).1 }
  | none =>
    if st.arith.contains K then { st with impossible := K :: st.impossible }
    else st

/-- Modelled from the spec: one iteration of
`AVarBoundsInfo::performWorkListInference` (declared at header lines
384-387; implementation not under `src/`).  Spec §4.5/§4.3: run `inferBounds`
over the worklist of array pointers needing bounds, then invoke
`keepHighestPriorityBounds` so a FlowInferred guess never outranks a
Declared or Allocator bound. -/
def oneIteration (g : AVGraph) (FromPB : Bool) (st : EngineState) :
    EngineState :=
  let st' := (needsBound st).foldl (processKey st.binfo g st.potBounds FromPB) st
  { st' with binfo := keepHighestPriorityBounds st'.binfo }

/-- The fuelled fixed-point loop: iterate `oneIteration` until an iteration
leaves the needs-bound worklist unchanged (spec §5: "each iteration either
strictly shrinks the needs-bound worklist or leaves it unchanged, triggering
loop exit"). -/
def loopAux (g : AVGraph) (FromPB : Bool) : Nat → EngineState → EngineState
  | 0, st => st
  | n + 1, st =>
    let st' := oneIteration g FromPB st
    if needsBound st' = needsBound st then st' else loopAux g FromPB n st'

/-- Modelled from the spec: `AVarBoundsInfo::performWorkListInference`
(declared at header lines 384-387; implementation not under `src/`): the
worklist fixed-point loop; `(needsBound st).length + 1` iterations always
suffice to reach quiescence (proved below). -/
def performWorkListInference (g : AVGraph) (FromPB : Bool)
    (st : EngineState) : EngineState :=
  loopAux g FromPB ((needsBound st).length + 1) st

/-- Modelled from the spec: `AVarBoundsInfo::performFlowAnalysis` (declared
at header lines 261-262; implementation not under `src/`).  Spec §4.5: two
full worklist passes — first graph-only (`FromPB = false`), then with the
potential-bounds fallback enabled for whatever remains unbounded. -/
def performFlowAnalysis (g : AVGraph) (st : EngineState) : EngineState :=
  performWorkListInference g true (performWorkListInference g false st)

/-! ## DetectERR expression utilities (`clang/lib/DetectERR/Utils.cpp`) -/

/-- The fragment of C types the utilities inspect: `isPointerType`
distinguishes pointer types from everything else. -/
inductive CType : Type
  | pointer
  | integer
  | other
deriving DecidableEq, Repr

/-- `clang::Type::isPointerType`. -/
def CType.isPointerType : CType → Bool
  | .pointer => true
  | _ => false

/-- The fragment of `clang::Expr` that `removeAuxillaryCasts`, `isNULLExpr`
and `isNegativeNumber` traverse: integer constants, parentheses, implicit
casts, C-style casts, and non-constant leaves (declaration references). -/
inductive CExpr : Type
  | intLit (ty : CType) (v : Int)
  | paren (e : CExpr)
  | impCast (ty : CType) (e : CExpr)
  | cCast (ty : CType) (e : CExpr)
  | declRef (ty : CType) (name : String)
deriving DecidableEq, Repr

/-- `clang::Expr::getType` on the fragment: a parenthesised expression has
the type of its operand; casts have their target type. -/
def CExpr.getType : CExpr → CType
  | .intLit ty _ => ty
  | .paren e => e.getType
  | .impCast ty _ => ty
  | .cCast ty _ => ty
  | .declRef ty _ => ty

/-- `clang::Expr::IgnoreParenImpCasts`: strip outermost parentheses and
implicit casts. -/
def ignoreParenImpCasts : CExpr → CExpr
  | .paren e => ignoreParenImpCasts e
  | .impCast _ e => ignoreParenImpCasts e
  | e => e

/-- `removeAuxillaryCasts` (Utils.cpp lines 19-30): repeatedly strip
outermost parentheses, implicit casts and C-style casts until none of the
three remains on top (the source loops `IgnoreParenImpCasts` followed by one
C-style-cast strip while anything was stripped; the loop recurrence is
proved below as `removeAuxillaryCasts_loop_eq`). -/
def removeAuxillaryCasts : CExpr → CExpr
  | .paren e => removeAuxillaryCasts e
  | .impCast _ e => removeAuxillaryCasts e
  | .cCast _ e => removeAuxillaryCasts e
  | e => e

/-- `clang::Expr::isIntegerConstantExpr` / `getIntegerConstantExpr` on the
fragment: evaluate an integer constant expression; the `Int` result plays
the role of the sign-extended value `APSInt::getSExtValue` returns.
Non-constant leaves do not evaluate. -/
def evalICE : CExpr → Option Int
  | .intLit _ v => some v
  | .paren e => evalICE e
  | .impCast _ e => evalICE e
  | .cCast _ e => evalICE e
  | .declRef _ _ => none

/-- `clang::Expr::isIntegerConstantExpr`. -/
def isIntegerConstantExpr (e : CExpr) : Bool :=
  (evalICE e).isSome

/-- `clang::Expr::isNullPointerConstant` with
`NPC_ValueDependentIsNotNull`, on the fragment: an integer constant
expression evaluating to zero. -/
def isNullPointerConstant (e : CExpr) : Bool :=
  evalICE e = some 0

/-- `isNULLExpr` (Utils.cpp lines 32-37): read the type of `E` as given,
strip auxiliary casts, and test pointer type together with the stripped
expression being an integer-constant null pointer constant. -/
def isNULLExpr (E : CExpr) : Bool :=
  let Typ := E.getType
  let Es := removeAuxillaryCasts E
  Typ.isPointerType && isIntegerConstantExpr Es && isNullPointerConstant Es

/-- `isNegativeNumber` (Utils.cpp lines 39-48): strip auxiliary casts; if
the result is an integer constant expression and it evaluates, test whether
its sign-extended value is strictly negative; otherwise return false. -/
def isNegativeNumber (E : CExpr) : Bool :=
  let Es := removeAuxillaryCasts E
  if isIntegerConstantExpr Es then
    match evalICE Es with
    | some NewAPI => decide (NewAPI < 0)
    | none => false
  else false

/-! ## Helper lemmas about the bounds store -/

theorem getBounds_invalid_eq (S : BInfoMap) (K : BoundsKey) :
    getBounds S K .Invalid =
      ((S K .Declared).or ((S K .Allocator).or
        ((S K .FlowInferred).or (S K .Heuristics)))) := by
  unfold getBounds PrioList
  cases hD : S K .Declared <;> cases hA : S K .Allocator <;>
    cases hF : S K .FlowInferred <;> cases hH : S K .Heuristics <;>
    simp [List.findSome?, hD, hA, hF, hH]

theorem getBounds_keepHighest (S : BInfoMap) (K : BoundsKey) :
    getBounds (keepHighestPriorityBounds S) K .Invalid =
      getBounds S K .Invalid := by
  rw [getBounds_invalid_eq, getBounds_invalid_eq]
  unfold keepHighestPriorityBounds highestPrio PrioList
  cases hD : S K .Declared <;> cases hA : S K .Allocator <;>
    cases hF : S K .FlowInferred <;> cases hH : S K .Heuristics <;>
    simp [List.find?, hD, hA, hF, hH]

theorem keepHighest_some (S : BInfoMap) (K : BoundsKey) (P : BoundsPriority)
    (b : ABounds) (h : keepHighestPriorityBounds S K P = some b) :
    S K P = some b := by
  unfold keepHighestPriorityBounds at h
  by_cases hc : highestPrio S K = some P
  · rwa [if_pos hc] at h
  · rw [if_neg hc] at h; exact absurd h (by simp)

theorem hasFlowOrHigher_keepHighest (S : BInfoMap) (K : BoundsKey) :
    hasFlowOrHigher (keepHighestPriorityBounds S) K = hasFlowOrHigher S K := by
  unfold hasFlowOrHigher keepHighestPriorityBounds highestPrio PrioList
  cases hD : S K .Declared <;> cases hA : S K .Allocator <;>
    cases hF : S K .FlowInferred <;> cases hH : S K .Heuristics <;>
    simp [List.find?, List.any, hD, hA, hF, hH]

/-! ## Claim theorems: bounds store -/

/-- C6: `mergeBounds` is idempotent within a tier: calling it twice with a
structurally equal bound leaves the store in the same observable state (the
second call is a no-op); if a different bound already exists at tier `P` the
new bound overwrites it; and the returned flag reports whether anything
changed. -/
theorem mergeBounds_idempotent (S : BInfoMap) (L : BoundsKey)
    (P : BoundsPriority) (B : ABounds) :
    mergeBounds (mergeBounds S L P B).1 L P B = ((mergeBounds S L P B).1, false)
    ∧ (∀ B0, S L P = some B0 → B0 ≠ B →
        (mergeBounds S L P B).1 L P = some B ∧ (mergeBounds S L P B).2 = true)
    ∧ ((mergeBounds S L P B).2 = false ↔ (mergeBounds S L P B).1 = S) := by
  refine ⟨?_, ?_, ?_⟩
  · by_cases h : S L P = some B
    · simp [mergeBounds, h]
    · have h2 : setTier S L P (some B) L P = some B := by simp [setTier]
      simp [mergeBounds, h, h2]
  · intro B0 hB0 hne
    have h : ¬(S L P = some B) := by
      rw [hB0]; intro hc; exact hne (Option.some_injective _ hc)
    simp [mergeBounds, h, setTier]
  · by_cases h : S L P = some B
    · simp [mergeBounds, h]
    · have hne : setTier S L P (some B) ≠ S := by
        intro hEq
        have := congrFun (congrFun hEq L) P
        simp [setTier] at this
        exact h this.symm
      simp [mergeBounds, h, hne]

/-- Witness for C6 at a concrete store: the store holds `Count 2` at tier
FlowInferred of key 1; merging `Count 3` overwrites it and reports a change,
and merging `Count 3` again is a no-op. -/
theorem mergeBounds_idempotent_witness :
    mergeBounds
        (mergeBounds (setTier emptyBInfo 1 .FlowInferred (some (.Count 2)))
          1 .FlowInferred (.Count 3)).1 1 .FlowInferred (.Count 3) =
      ((mergeBounds (setTier emptyBInfo 1 .FlowInferred (some (.Count 2)))
          1 .FlowInferred (.Count 3)).1, false)
    ∧ (mergeBounds (setTier emptyBInfo 1 .FlowInferred (some (.Count 2)))
        1 .FlowInferred (.Count 3)).1 1 .FlowInferred = some (.Count 3)
    ∧ (mergeBounds (setTier emptyBInfo 1 .FlowInferred (some (.Count 2)))
        1 .FlowInferred (.Count 3)).2 = true := by
  obtain ⟨h1, h2, _⟩ :=
    mergeBounds_idempotent
      (setTier emptyBInfo 1 .FlowInferred (some (.Count 2)))
      1 .FlowInferred (.Count 3)
  obtain ⟨h2a, h2b⟩ := h2 (.Count 2) rfl (by decide)
  exact ⟨h1, h2a, h2b⟩

/-- C1: `getBounds` with no explicit priority returns the bound stored at
the highest-priority tier with an entry, scanning Declared, Allocator,
FlowInferred, Heuristics in that order, and never a lower tier while a
higher tier has an entry; with an explicit tier it returns exactly that
tier's bound or none; and the priority-scan result is unchanged after
`keepHighestPriorityBounds` has run. -/
theorem getBounds_priority_order (S : BInfoMap) (K : BoundsKey) :
    (∀ P, P ≠ .Invalid → getBounds S K P = S K P)
    ∧ (∀ P b, S K P = some b →
        (∀ Q, Q ∈ PrioList → Q.rank < P.rank → S K Q = none) →
        P ∈ PrioList → getBounds S K .Invalid = some b)
    ∧ (∀ P, highestPrio S K = some P → getBounds S K .Invalid = S K P)
    ∧ (highestPrio S K = none → getBounds S K .Invalid = none)
    ∧ getBounds (keepHighestPriorityBounds S) K .Invalid =
        getBounds S K .Invalid := by
  refine ⟨?_, ?_, ?_, ?_, getBounds_keepHighest S K⟩
  · intro P h
    simp [getBounds, h]
  · intro P b hP hnone hmem
    rw [getBounds_invalid_eq]
    simp [PrioList] at hmem
    rcases hmem with h | h | h | h <;> subst h
    · rw [hP]; rfl
    · rw [hnone .Declared (by simp [PrioList]) (by decide), hP]; rfl
    · rw [hnone .Declared (by simp [PrioList]) (by decide),
        hnone .Allocator (by simp [PrioList]) (by decide), hP]; rfl
    · rw [hnone .Declared (by simp [PrioList]) (by decide),
        hnone .Allocator (by simp [PrioList]) (by decide),
        hnone .FlowInferred (by simp [PrioList]) (by decide), hP]; rfl
  · intro P hP
    rw [getBounds_invalid_eq]
    unfold highestPrio PrioList at hP
    cases hD : S K .Declared <;> cases hA : S K .Allocator <;>
      cases hF : S K .FlowInferred <;> cases hH : S K .Heuristics <;>
      simp [List.find?, hD, hA, hF, hH] at hP <;> subst hP <;>
      simp [hD, hA, hF, hH]
  · intro hP
    rw [getBounds_invalid_eq]
    unfold highestPrio PrioList at hP
    cases hD : S K .Declared <;> cases hA : S K .Allocator <;>
      cases hF : S K .FlowInferred <;> cases hH : S K .Heuristics <;>
      simp [List.find?, hD, hA, hF, hH] at hP <;> simp [hD, hA, hF, hH]

/-- Witness for C1 at a concrete store holding `Count 1` at tier Allocator
and `Count 2` at tier Heuristics of key 5: the explicit-tier query returns
the Allocator entry, the priority scan returns the Allocator bound (never
the Heuristics one), and the scan is unchanged by
`keepHighestPriorityBounds`. -/
theorem getBounds_priority_order_witness :
    getBounds
        (setTier (setTier emptyBInfo 5 .Allocator (some (.Count 1)))
          5 .Heuristics (some (.Count 2))) 5 .Allocator =
      setTier (setTier emptyBInfo 5 .Allocator (some (.Count 1)))
        5 .Heuristics (some (.Count 2)) 5 .Allocator
    ∧ getBounds
        (setTier (setTier emptyBInfo 5 .Allocator (some (.Count 1)))
          5 .Heuristics (some (.Count 2))) 5 .Invalid = some (.Count 1)
    ∧ getBounds
        (keepHighestPriorityBounds
          (setTier (setTier emptyBInfo 5 .Allocator (some (.Count 1)))
            5 .Heuristics (some (.Count 2)))) 5 .Invalid =
      getBounds
        (setTier (setTier emptyBInfo 5 .Allocator (some (.Count 1)))
          5 .Heuristics (some (.Count 2))) 5 .Invalid := by
  obtain ⟨c1, c2, _, _, c5⟩ :=
    getBounds_priority_order
      (setTier (setTier emptyBInfo 5 .Allocator (some (.Count 1)))
        5 .Heuristics (some (.Count 2))) 5
  exact ⟨c1 .Allocator (by decide), c2 .Allocator (.Count 1) rfl
    (by decide) (by decide), c5⟩

/-! ## Claim theorems: registry -/

/-- C7: key stability — for every declaration that can carry a bounds key,
calling `getVariable` twice returns the same `BoundsKey` both times, and the
second call leaves the registry unchanged, whether the declaration is keyed
by persistent source location or by the structural {context, name, kind,
index} tuple used for parameters and returns. -/
theorem getVariable_stable (s : RegState) (D : CDecl)
    (h : isValidBoundVariable D = true) :
    (getVariable (getVariable s D).2 D).1 = (getVariable s D).1
    ∧ (getVariable (getVariable s D).2 D).2 = (getVariable s D).2 := by
  cases hl : lookupDecl s D with
  | some k =>
    constructor <;> simp [getVariable, hl]
  | none =>
    have hl2 : lookupDecl { insertDeclKey s D s.bcount with
        bcount := s.bcount + 1 } D = some s.bcount := by
      cases D with
      | varDecl p => simp [lookupDecl, insertDeclKey, assocLookup]
      | fieldDecl p => simp [lookupDecl, insertDeclKey, assocLookup]
      | paramDecl pd => simp [lookupDecl, insertDeclKey, assocLookup]
      | funcDecl fk => simp [lookupDecl, insertDeclKey, assocLookup]
      | otherDecl p => exact absurd h (by simp [isValidBoundVariable])
    constructor <;> simp [getVariable, hl, hl2]

/-- Witness for C7: registering the variable declaration at
("f.c", 3, 7) in a fresh registry and asking again returns the same key. -/
theorem getVariable_stable_witness :
    (getVariable (getVariable initRegState
        (CDecl.varDecl ("f.c", 3, 7))).2 (CDecl.varDecl ("f.c", 3, 7))).1 =
      (getVariable initRegState (CDecl.varDecl ("f.c", 3, 7))).1
    ∧ (getVariable (getVariable initRegState
        (CDecl.varDecl ("f.c", 3, 7))).2 (CDecl.varDecl ("f.c", 3, 7))).2 =
      (getVariable initRegState (CDecl.varDecl ("f.c", 3, 7))).2 :=
  getVariable_stable initRegState (CDecl.varDecl ("f.c", 3, 7)) rfl

/-! ## Claim theorems: DetectERR utilities -/

theorem removeAuxillaryCasts_loop_eq (E : CExpr) :
    removeAuxillaryCasts E =
      (match ignoreParenImpCasts E with
       | .cCast _ s => removeAuxillaryCasts s
       | e => e) := by
  induction E with
  | intLit ty v => rfl
  | paren e ih => simpa [removeAuxillaryCasts, ignoreParenImpCasts] using ih
  | impCast ty e ih =>
    simpa [removeAuxillaryCasts, ignoreParenImpCasts] using ih
  | cCast ty e ih => simp [removeAuxillaryCasts, ignoreParenImpCasts]
  | declRef ty n => rfl

theorem removeAuxillaryCasts_idem (E : CExpr) :
    removeAuxillaryCasts (removeAuxillaryCasts E) = removeAuxillaryCasts E := by
  induction E with
  | intLit ty v => rfl
  | paren e ih => simpa [removeAuxillaryCasts] using ih
  | impCast ty e ih => simpa [removeAuxillaryCasts] using ih
  | cCast ty e ih => simpa [removeAuxillaryCasts] using ih
  | declRef ty n => rfl

/-- C9: `isNULLExpr` returns true exactly when the static type of the
expression as given (before any cast stripping) is a pointer type and the
expression, after removing parentheses, implicit casts and C-style casts, is
an integer constant expression that is a null pointer constant; in
particular it returns false whenever the outer type is not a pointer type,
even for the constant 0. -/
theorem isNULLExpr_spec (E : CExpr) :
    (isNULLExpr E = true ↔
      (E.getType.isPointerType = true
        ∧ isIntegerConstantExpr (removeAuxillaryCasts E) = true
        ∧ isNullPointerConstant (removeAuxillaryCasts E) = true))
    ∧ (E.getType.isPointerType = false → isNULLExpr E = false) := by
  constructor
  · simp [isNULLExpr, Bool.and_eq_true, and_assoc]
  · intro h
    simp [isNULLExpr, h]

/-- Witness for C9: `(char *)0` (a C-style cast of the integer constant 0 to
a pointer type) is recognised as a null expression, while the bare integer
constant 0 — whose outer type is not a pointer type — is not. -/
theorem isNULLExpr_spec_witness :
    isNULLExpr (CExpr.cCast .pointer (CExpr.intLit .integer 0)) = true
    ∧ isNULLExpr (CExpr.intLit .integer 0) = false :=
  ⟨(isNULLExpr_spec (CExpr.cCast .pointer (CExpr.intLit .integer 0))).1.mpr
      ⟨rfl, rfl, rfl⟩,
    (isNULLExpr_spec (CExpr.intLit .integer 0)).2 rfl⟩

/-- C10: `isNegativeNumber` returns true exactly when the expression, after
removing parentheses, implicit casts and C-style casts, is an integer
constant expression whose sign-extended value is strictly negative; a
non-constant expression yields false rather than a failure; and
`removeAuxillaryCasts` is idempotent. -/
theorem isNegativeNumber_spec (E : CExpr) :
    (isNegativeNumber E = true ↔
      (∃ v, evalICE (removeAuxillaryCasts E) = some v ∧ v < 0))
    ∧ (evalICE (removeAuxillaryCasts E) = none → isNegativeNumber E = false)
    ∧ removeAuxillaryCasts (removeAuxillaryCasts E) = removeAuxillaryCasts E := by
  refine ⟨?_, ?_, removeAuxillaryCasts_idem E⟩
  · cases hv : evalICE (removeAuxillaryCasts E) with
    | none => simp [isNegativeNumber, isIntegerConstantExpr, hv]
    | some v => simp [isNegativeNumber, isIntegerConstantExpr, hv]
  · intro hv
    simp [isNegativeNumber, isIntegerConstantExpr, hv]

/-- Witness for C10: `(int)(-5)` (with a parenthesis and a C-style cast) is
recognised as a negative number; a cast of the non-constant reference `x` is
not; and stripping is idempotent on the former. -/
theorem isNegativeNumber_spec_witness :
    isNegativeNumber
        (CExpr.cCast .integer (CExpr.paren (CExpr.intLit .integer (-5)))) =
      true
    ∧ isNegativeNumber
        (CExpr.impCast .integer (CExpr.declRef .integer "x")) = false
    ∧ removeAuxillaryCasts
        (removeAuxillaryCasts
          (CExpr.cCast .integer (CExpr.paren (CExpr.intLit .integer (-5))))) =
      removeAuxillaryCasts
        (CExpr.cCast .integer (CExpr.paren (CExpr.intLit .integer (-5)))) :=
  ⟨(isNegativeNumber_spec
      (CExpr.cCast .integer (CExpr.paren (CExpr.intLit .integer (-5))))).1.mpr
      ⟨-5, rfl, by decide⟩,
    (isNegativeNumber_spec
      (CExpr.impCast .integer (CExpr.declRef .integer "x"))).2.1 rfl,
    (isNegativeNumber_spec
      (CExpr.cCast .integer (CExpr.paren (CExpr.intLit .integer (-5))))).2.2⟩

/-! ## Helper lemmas about one inference iteration -/

theorem processKey_binfo_other (snap : BInfoMap) (g : AVGraph)
    (pot : BoundsKey → List BoundsKey) (FromPB : Bool) (st : EngineState)
    (K Kx : BoundsKey) (P : BoundsPriority) (hne : Kx ≠ K) :
    (processKey snap g pot FromPB st K).binfo Kx P = st.binfo Kx P := by
  cases h : inferBoundsKey snap g pot FromPB K with
  | some b =>
    by_cases h2 : st.binfo K .FlowInferred = some b <;>
      simp [processKey, h, mergeBounds, h2, setTier, hne]
  | none =>
    by_cases h2 : K ∈ st.arith <;> simp [processKey, h, h2]

theorem processKey_binfo_self (snap : BInfoMap) (g : AVGraph)
    (pot : BoundsKey → List BoundsKey) (FromPB : Bool) (st : EngineState)
    (K : BoundsKey) (P : BoundsPriority) :
    (processKey snap g pot FromPB st K).binfo K P =
      (if P = .FlowInferred ∧ (inferBoundsKey snap g pot FromPB K).isSome
       then inferBoundsKey snap g pot FromPB K
       else st.binfo K P) := by
  cases h : inferBoundsKey snap g pot FromPB K with
  | some b =>
    by_cases hP : P = BoundsPriority.FlowInferred
    · subst hP
      by_cases h2 : st.binfo K .FlowInferred = some b <;>
        simp [processKey, h, mergeBounds, h2, setTier]
    · by_cases h2 : st.binfo K .FlowInferred = some b <;>
        simp [processKey, h, mergeBounds, h2, setTier, hP]
  | none =>
    by_cases h2 : K ∈ st.arith <;> simp [processKey, h, h2]

theorem processKey_fields (snap : BInfoMap) (g : AVGraph)
    (pot : BoundsKey → List BoundsKey) (FromPB : Bool) (st : EngineState)
    (K : BoundsKey) :
    (processKey snap g pot FromPB st K).arith = st.arith
    ∧ (processKey snap g pot FromPB st K).arrPtrs = st.arrPtrs
    ∧ (processKey snap g pot FromPB st K).potBounds = st.potBounds := by
  cases h : inferBoundsKey snap g pot FromPB K with
  | some b => simp [processKey, h]
  | none => by_cases h2 : K ∈ st.arith <;> simp [processKey, h, h2]

theorem processKey_impossible (snap : BInfoMap) (g : AVGraph)
    (pot : BoundsKey → List BoundsKey) (FromPB : Bool) (st : EngineState)
    (K Kx : BoundsKey) :
    (Kx ∈ (processKey snap g pot FromPB st K).impossible ↔
      Kx ∈ st.impossible
      ∨ (Kx = K ∧ inferBoundsKey snap g pot FromPB K = none
          ∧ K ∈ st.arith)) := by
  cases h : inferBoundsKey snap g pot FromPB K with
  | some b => simp [processKey, h]
  | none =>
    by_cases h2 : K ∈ st.arith <;>
      simp [processKey, h, h2, List.mem_cons] <;> tauto

theorem foldl_processKey_fields (snap : BInfoMap) (g : AVGraph)
    (pot : BoundsKey → List BoundsKey) (FromPB : Bool) (wl : List BoundsKey)
    (st : EngineState) :
    (wl.foldl (processKey snap g pot FromPB) st).arith = st.arith
    ∧ (wl.foldl (processKey snap g pot FromPB) st).arrPtrs = st.arrPtrs
    ∧ (wl.foldl (processKey snap g pot FromPB) st).potBounds =
        st.potBounds := by
  induction wl generalizing st with
  | nil => exact ⟨rfl, rfl, rfl⟩
  | cons A rest ih =>
    obtain ⟨h1, h2, h3⟩ := processKey_fields snap g pot FromPB st A
    obtain ⟨i1, i2, i3⟩ := ih (processKey snap g pot FromPB st A)
    exact ⟨by rw [List.foldl_cons, i1, h1], by rw [List.foldl_cons, i2, h2],
      by rw [List.foldl_cons, i3, h3]⟩

theorem foldl_processKey_binfo (snap : BInfoMap) (g : AVGraph)
    (pot : BoundsKey → List BoundsKey) (FromPB : Bool) (wl : List BoundsKey)
    (st : EngineState) (hnd : wl.Nodup) (K : BoundsKey) (P : BoundsPriority) :
    (wl.foldl (processKey snap g pot FromPB) st).binfo K P =
      (if K ∈ wl ∧ P = .FlowInferred
          ∧ (inferBoundsKey snap g pot FromPB K).isSome
       then inferBoundsKey snap g pot FromPB K
       else st.binfo K P) := by
  induction wl generalizing st with
  | nil => simp
  | cons A rest ih =>
    have hA : A ∉ rest := (List.nodup_cons.mp hnd).1
    have hndr : rest.Nodup := (List.nodup_cons.mp hnd).2
    rw [List.foldl_cons, ih (processKey snap g pot FromPB st A) hndr]
    by_cases hKr : K ∈ rest
    · have hKA : K ≠ A := fun h => hA (h ▸ hKr)
      rw [processKey_binfo_other snap g pot FromPB st A K P hKA]
      have hmem : K ∈ A :: rest := List.mem_cons_of_mem A hKr
      simp [hKr, hmem]
    · by_cases hKA : K = A
      · subst hKA
        rw [processKey_binfo_self snap g pot FromPB st K P]
        simp [hKr, List.mem_cons_self]
      · rw [processKey_binfo_other snap g pot FromPB st A K P hKA]
        have hmem : K ∉ A :: rest := by
          simp [List.mem_cons, hKA, hKr]
        simp [hKr, hmem]

theorem foldl_processKey_impossible (snap : BInfoMap) (g : AVGraph)
    (pot : BoundsKey → List BoundsKey) (FromPB : Bool) (wl : List BoundsKey)
    (st : EngineState) (Kx : BoundsKey) :
    (Kx ∈ (wl.foldl (processKey snap g pot FromPB) st).impossible ↔
      Kx ∈ st.impossible
      ∨ (Kx ∈ wl ∧ inferBoundsKey snap g pot FromPB Kx = none
          ∧ Kx ∈ st.arith)) := by
  induction wl generalizing st with
  | nil => simp
  | cons A rest ih =>
    rw [List.foldl_cons, ih (processKey snap g pot FromPB st A)]
    rw [processKey_impossible snap g pot FromPB st A Kx]
    have harith := (processKey_fields snap g pot FromPB st A).1
    rw [harith]
    constructor
    · rintro ((h | ⟨hEq, hInf, hC⟩) | ⟨hmem, hInf, hC⟩)
      · exact Or.inl h
      · exact Or.inr ⟨by simp [hEq], by rwa [hEq], by rwa [hEq]⟩
      · exact Or.inr ⟨List.mem_cons_of_mem A hmem, hInf, hC⟩
    · rintro (h | ⟨hmem, hInf, hC⟩)
      · exact Or.inl (Or.inl h)
      · rcases List.mem_cons.mp hmem with hEq | hmem2
        · exact Or.inl (Or.inr ⟨hEq, by rwa [← hEq], by rwa [← hEq]⟩)
        · exact Or.inr ⟨hmem2, hInf, hC⟩

theorem oneIteration_binfo (g : AVGraph) (FromPB : Bool) (st : EngineState) :
    (oneIteration g FromPB st).binfo =
      keepHighestPriorityBounds
        (((needsBound st).foldl (processKey st.binfo g st.potBounds FromPB)
            st).binfo) := rfl

theorem oneIteration_arrPtrs (g : AVGraph) (FromPB : Bool)
    (st : EngineState) : (oneIteration g FromPB st).arrPtrs = st.arrPtrs := by
  simp only [oneIteration]
  exact (foldl_processKey_fields st.binfo g st.potBounds FromPB
    (needsBound st) st).2.1

theorem oneIteration_impossible (g : AVGraph) (FromPB : Bool)
    (st : EngineState) (Kx : BoundsKey) :
    (Kx ∈ (oneIteration g FromPB st).impossible ↔
      Kx ∈ st.impossible
      ∨ (Kx ∈ needsBound st
          ∧ inferBoundsKey st.binfo g st.potBounds FromPB Kx = none
          ∧ Kx ∈ st.arith)) := by
  simp only [oneIteration]
  exact foldl_processKey_impossible st.binfo g st.potBounds FromPB
    (needsBound st) st Kx

theorem mem_needsBound (st : EngineState) (k : BoundsKey) :
    k ∈ needsBound st ↔
      k ∈ st.arrPtrs ∧ hasFlowOrHigher st.binfo k = false
        ∧ k ∉ st.impossible := by
  simp [needsBound, List.mem_filter, and_assoc]

theorem hasFlowOrHigher_foldl (snap : BInfoMap) (g : AVGraph)
    (pot : BoundsKey → List BoundsKey) (FromPB : Bool) (wl : List BoundsKey)
    (st : EngineState) (hnd : wl.Nodup) (k : BoundsKey)
    (h : hasFlowOrHigher st.binfo k = true) :
    hasFlowOrHigher
      ((wl.foldl (processKey snap g pot FromPB) st).binfo) k = true := by
  simp only [hasFlowOrHigher, List.any_eq_true] at h ⊢
  obtain ⟨P, hP, hsome⟩ := h
  refine ⟨P, hP, ?_⟩
  rw [foldl_processKey_binfo snap g pot FromPB wl st hnd]
  split
  · next hc => exact hc.2.2
  · exact hsome

theorem needsBound_oneIteration_sublist (g : AVGraph) (FromPB : Bool)
    (st : EngineState) (hnd : st.arrPtrs.Nodup) :
    List.Sublist (needsBound (oneIteration g FromPB st)) (needsBound st) := by
  have hwl : (needsBound st).Nodup := hnd.filter _
  unfold needsBound
  rw [oneIteration_arrPtrs]
  refine List.monotone_filter_right st.arrPtrs ?_
  intro k hk
  simp only [Bool.and_eq_true, Bool.not_eq_true'] at hk ⊢
  obtain ⟨h1, h2⟩ := hk
  constructor
  · rw [oneIteration_binfo, hasFlowOrHigher_keepHighest] at h1
    cases hq : hasFlowOrHigher st.binfo k with
    | false => rfl
    | true =>
      rw [hasFlowOrHigher_foldl st.binfo g st.potBounds FromPB
        (needsBound st) st hwl k hq] at h1
      exact h1
  · have h2m : k ∉ (oneIteration g FromPB st).impossible := by
      intro hm
      simp [hm] at h2
    have hst : k ∉ st.impossible :=
      fun hmem => h2m ((oneIteration_impossible g FromPB st k).mpr
        (Or.inl hmem))
    simp [hst]

theorem loopAux_exit (g : AVGraph) (FromPB : Bool) (st : EngineState)
    (n : Nat) (h : needsBound (oneIteration g FromPB st) = needsBound st) :
    loopAux g FromPB (n + 1) st = oneIteration g FromPB st := by
  simp [loopAux, h]

theorem needs_fixpoint (g : AVGraph) (FromPB : Bool) :
    ∀ (N : Nat) (st : EngineState), st.arrPtrs.Nodup →
      (needsBound st).length ≤ N →
      ∃ n, n ≤ N
        ∧ needsBound ((oneIteration g FromPB)^[n + 1] st) =
            needsBound ((oneIteration g FromPB)^[n] st) := by
  intro N
  induction N with
  | zero =>
    intro st hnd hlen
    have hnil : needsBound st = [] :=
      List.length_eq_zero.mp (Nat.le_zero.mp hlen)
    have hsub := needsBound_oneIteration_sublist g FromPB st hnd
    rw [hnil] at hsub
    have hnil2 : needsBound (oneIteration g FromPB st) = [] :=
      List.sublist_nil.mp hsub
    refine ⟨0, Nat.le_refl 0, ?_⟩
    rw [Function.iterate_succ_apply, Function.iterate_zero_apply,
      Function.iterate_zero_apply, hnil2, hnil]
  | succ N ih =>
    intro st hnd hlen
    by_cases h : needsBound (oneIteration g FromPB st) = needsBound st
    · refine ⟨0, Nat.zero_le _, ?_⟩
      rw [Function.iterate_succ_apply, Function.iterate_zero_apply,
        Function.iterate_zero_apply]
      exact h
    · have hsub := needsBound_oneIteration_sublist g FromPB st hnd
      have hlt : (needsBound (oneIteration g FromPB st)).length
          < (needsBound st).length := by
        rcases Nat.lt_or_ge (needsBound (oneIteration g FromPB st)).length
            (needsBound st).length with hl | hg
        · exact hl
        · exact absurd
            (hsub.eq_of_length (Nat.le_antisymm hsub.length_le hg)) h
      have hnd' : (oneIteration g FromPB st).arrPtrs.Nodup := by
        rw [oneIteration_arrPtrs]; exact hnd
      obtain ⟨n, hn, hfix⟩ := ih (oneIteration g FromPB st) hnd' (by omega)
      refine ⟨n + 1, by omega, ?_⟩
      rw [Function.iterate_succ_apply, Function.iterate_succ_apply]
      exact hfix

theorem loopAux_needs_sublist (g : AVGraph) (FromPB : Bool) :
    ∀ (fuel : Nat) (st : EngineState), st.arrPtrs.Nodup →
      List.Sublist (needsBound (loopAux g FromPB fuel st)) (needsBound st)
      ∧ (loopAux g FromPB fuel st).arrPtrs = st.arrPtrs := by
  intro fuel
  induction fuel with
  | zero => intro st _; exact ⟨List.Sublist.refl _, rfl⟩
  | succ n ih =>
    intro st hnd
    have hsub := needsBound_oneIteration_sublist g FromPB st hnd
    have harr := oneIteration_arrPtrs g FromPB st
    by_cases h : needsBound (oneIteration g FromPB st) = needsBound st
    · have hstep : loopAux g FromPB (n + 1) st = oneIteration g FromPB st := by
        simp only [loopAux]
        rw [if_pos h]
      rw [hstep]
      exact ⟨by rw [h], harr⟩
    · have hnd2 : (oneIteration g FromPB st).arrPtrs.Nodup := by
        rw [harr]; exact hnd
      obtain ⟨ih1, ih2⟩ := ih (oneIteration g FromPB st) hnd2
      have hstep : loopAux g FromPB (n + 1) st =
          loopAux g FromPB n (oneIteration g FromPB st) := by
        simp only [loopAux]
        rw [if_neg h]
      rw [hstep]
      exact ⟨ih1.trans hsub, by rw [ih2, harr]⟩

theorem performWorkListInference_needs_sublist (g : AVGraph) (FromPB : Bool)
    (st : EngineState) (hnd : st.arrPtrs.Nodup) :
    List.Sublist (needsBound (performWorkListInference g FromPB st))
      (needsBound st)
    ∧ (performWorkListInference g FromPB st).arrPtrs = st.arrPtrs :=
  loopAux_needs_sublist g FromPB ((needsBound st).length + 1) st hnd

/-! ## Claim theorems: inference engine -/

/-- C2: the worklist inference terminates on any finite input — one
iteration never grows the needs-bound worklist (it is a sublist of the
previous one), a key that has left the worklist (converged) never re-enters
it, a key marked ImpossibleBounds stays marked and stays out of the
worklist, an unchanged iteration makes the loop exit immediately, and the
worklist chain reaches a fixed point within `(needsBound st).length`
iterations. -/
theorem worklist_inference_terminates (g : AVGraph) (FromPB : Bool)
    (st : EngineState) (hnd : st.arrPtrs.Nodup) :
    List.Sublist (needsBound (oneIteration g FromPB st)) (needsBound st)
    ∧ (∀ K, K ∉ needsBound st → K ∉ needsBound (oneIteration g FromPB st))
    ∧ (∀ K, K ∈ st.impossible →
        K ∈ (oneIteration g FromPB st).impossible
          ∧ K ∉ needsBound (oneIteration g FromPB st))
    ∧ (needsBound (oneIteration g FromPB st) = needsBound st →
        performWorkListInference g FromPB st = oneIteration g FromPB st)
    ∧ (∃ n, n ≤ (needsBound st).length
        ∧ needsBound ((oneIteration g FromPB)^[n + 1] st) =
            needsBound ((oneIteration g FromPB)^[n] st))
    ∧ List.Sublist (needsBound (performFlowAnalysis g st))
        (needsBound st) := by
  have hsub := needsBound_oneIteration_sublist g FromPB st hnd
  refine ⟨hsub, ?_, ?_, ?_, ?_, ?_⟩
  · intro K hK hK2
    exact hK (hsub.subset hK2)
  · intro K hK
    have himp : K ∈ (oneIteration g FromPB st).impossible :=
      (oneIteration_impossible g FromPB st K).mpr (Or.inl hK)
    refine ⟨himp, ?_⟩
    intro hmem
    exact ((mem_needsBound (oneIteration g FromPB st) K).mp hmem).2.2 himp
  · intro h
    exact loopAux_exit g FromPB st (needsBound st).length h
  · exact needs_fixpoint g FromPB (needsBound st).length st hnd
      (Nat.le_refl _)
  · obtain ⟨s1, a1⟩ :=
      performWorkListInference_needs_sublist g false st hnd
    obtain ⟨s2, _⟩ :=
      performWorkListInference_needs_sublist g true
        (performWorkListInference g false st) (by rw [a1]; exact hnd)
    exact (s2.trans s1)

/-- Witness for C2 at a concrete two-pointer state: key 4 is already marked
ImpossibleBounds, key 1 gets a bound from its neighbour 2, so the worklist
shrinks, key 4 stays marked and out of the worklist; and on a quiescent
state the loop exits after one iteration. -/
theorem worklist_inference_terminates_witness :
    List.Sublist
      (needsBound (oneIteration (fun k => if k = 1 then [2] else []) false
        ⟨setTier emptyBInfo 2 .Declared (some (.Count 9)), [4], [], [4, 1],
          fun _ => []⟩))
      (needsBound
        ⟨setTier emptyBInfo 2 .Declared (some (.Count 9)), [4], [], [4, 1],
          fun _ => []⟩)
    ∧ 4 ∈ (oneIteration (fun k => if k = 1 then [2] else []) false
        ⟨setTier emptyBInfo 2 .Declared (some (.Count 9)), [4], [], [4, 1],
          fun _ => []⟩).impossible
    ∧ performWorkListInference (fun _ => []) false
        ⟨emptyBInfo, [], [], [], fun _ => []⟩ =
      oneIteration (fun _ => []) false
        ⟨emptyBInfo, [], [], [], fun _ => []⟩ := by
  obtain ⟨c1, _, c3, _, _⟩ :=
    worklist_inference_terminates (fun k => if k = 1 then [2] else []) false
      ⟨setTier emptyBInfo 2 .Declared (some (.Count 9)), [4], [], [4, 1],
        fun _ => []⟩ (by decide)
  obtain ⟨_, _, _, c4, _⟩ :=
    worklist_inference_terminates (fun _ => []) false
      ⟨emptyBInfo, [], [], [], fun _ => []⟩ (by decide)
  exact ⟨c1, (c3 4 (by decide)).1, c4 (by decide)⟩

theorem oneIteration_impossible_binfo (g : AVGraph) (FromPB : Bool)
    (st : EngineState) (K : BoundsKey) (himp : K ∈ st.impossible)
    (hnd : st.arrPtrs.Nodup) (P : BoundsPriority) (b : ABounds)
    (h : (oneIteration g FromPB st).binfo K P = some b) :
    st.binfo K P = some b := by
  rw [oneIteration_binfo] at h
  have h2 := keepHighest_some _ _ _ _ h
  rw [foldl_processKey_binfo st.binfo g st.potBounds FromPB (needsBound st)
    st (hnd.filter _) K P] at h2
  have hK : K ∉ needsBound st :=
    fun hm => ((mem_needsBound st K).mp hm).2.2 himp
  rw [if_neg (fun hc => hK hc.1)] at h2
  exact h2

/-- C4: ImpossibleBounds is terminal — once a key is in the
ImpossibleBounds set, after any number of further inference iterations it is
still in the set, no FlowInferred- or Heuristics-tier bound has been
installed for it (any such entry present later was already present before),
and it stays permanently excluded from the needs-bound candidate worklist. -/
theorem impossible_bounds_terminal (g : AVGraph) (FromPB : Bool)
    (st : EngineState) (K : BoundsKey) (n : Nat)
    (himp : K ∈ st.impossible) (hnd : st.arrPtrs.Nodup) :
    K ∈ ((oneIteration g FromPB)^[n] st).impossible
    ∧ (∀ P b,
        (P = BoundsPriority.FlowInferred ∨ P = BoundsPriority.Heuristics) →
        ((oneIteration g FromPB)^[n] st).binfo K P = some b →
        st.binfo K P = some b)
    ∧ K ∉ needsBound ((oneIteration g FromPB)^[n] st) := by
  induction n generalizing st with
  | zero =>
    rw [Function.iterate_zero_apply]
    exact ⟨himp, fun P b _ h => h,
      fun hm => ((mem_needsBound st K).mp hm).2.2 himp⟩
  | succ n ih =>
    rw [Function.iterate_succ_apply]
    have himp2 : K ∈ (oneIteration g FromPB st).impossible :=
      (oneIteration_impossible g FromPB st K).mpr (Or.inl himp)
    have hnd2 : (oneIteration g FromPB st).arrPtrs.Nodup := by
      rw [oneIteration_arrPtrs]; exact hnd
    obtain ⟨h1, h2, h3⟩ := ih (oneIteration g FromPB st) himp2 hnd2
    refine ⟨h1, ?_, h3⟩
    intro P b hP h
    exact oneIteration_impossible_binfo g FromPB st K himp hnd P b
      (h2 P b hP h)

/-- Witness for C4: key 4 is marked ImpossibleBounds while holding a
pre-existing FlowInferred bound `Count 9`; after two further iterations it
is still marked, holds no bound beyond that pre-existing one, and is still
excluded from the worklist. -/
theorem impossible_bounds_terminal_witness :
    4 ∈ ((oneIteration (fun _ => []) false)^[2]
        ⟨setTier emptyBInfo 4 .FlowInferred (some (.Count 9)), [4], [],
          [4, 1], fun _ => []⟩).impossible
    ∧ (setTier emptyBInfo 4 .FlowInferred (some (.Count 9))) 4
        .FlowInferred = some (.Count 9)
    ∧ (needsBound ((oneIteration (fun _ => []) false)^[2]
        ⟨setTier emptyBInfo 4 .FlowInferred (some (.Count 9)), [4], [],
          [4, 1], fun _ => []⟩)).contains 4 = false := by
  obtain ⟨h1, h2, h3⟩ :=
    impossible_bounds_terminal (fun _ => []) false
      ⟨setTier emptyBInfo 4 .FlowInferred (some (.Count 9)), [4], [],
        [4, 1], fun _ => []⟩ 4 2 (by decide) (by decide)
  exact ⟨h1, h2 .FlowInferred (.Count 9) (Or.inl rfl) (by decide),
    by simpa using h3⟩

/-- C3: inference is deterministic and independent of traversal-order
nondeterminism — processing the same worklist of keys in any order
(any permutation of a duplicate-free worklist), against the same snapshot
store, graph and candidate sets, yields identical bound assignments for
every key and tier and an identical ImpossibleBounds classification. -/
theorem inference_deterministic (snap : BInfoMap) (g : AVGraph)
    (pot : BoundsKey → List BoundsKey) (FromPB : Bool) (st : EngineState)
    (wl₁ wl₂ : List BoundsKey) (hperm : wl₁.Perm wl₂) (hnd : wl₁.Nodup) :
    (∀ K P, (wl₁.foldl (processKey snap g pot FromPB) st).binfo K P =
        (wl₂.foldl (processKey snap g pot FromPB) st).binfo K P)
    ∧ (∀ K, K ∈ (wl₁.foldl (processKey snap g pot FromPB) st).impossible ↔
        K ∈ (wl₂.foldl (processKey snap g pot FromPB) st).impossible) := by
  have hnd₂ : wl₂.Nodup := hperm.nodup_iff.mp hnd
  constructor
  · intro K P
    rw [foldl_processKey_binfo snap g pot FromPB wl₁ st hnd K P,
      foldl_processKey_binfo snap g pot FromPB wl₂ st hnd₂ K P]
    by_cases hm : K ∈ wl₁
    · simp [hm, hperm.mem_iff.mp hm]
    · have hm2 : K ∉ wl₂ := fun h => hm (hperm.mem_iff.mpr h)
      simp [hm, hm2]
  · intro K
    rw [foldl_processKey_impossible snap g pot FromPB wl₁ st K,
      foldl_processKey_impossible snap g pot FromPB wl₂ st K,
      hperm.mem_iff]

/-- Witness for C3: processing the worklist [1, 2] and its permutation
[2, 1] — both keys drawing their bound from neighbour 3, which holds a
declared `Count 7` — produces the same FlowInferred entry for key 1 and the
same ImpossibleBounds classification. -/
theorem inference_deterministic_witness :
    (([1, 2] : List BoundsKey).foldl
        (processKey (setTier emptyBInfo 3 .Declared (some (.Count 7)))
          (fun _ => [3]) (fun _ => []) false)
        ⟨emptyBInfo, [], [], [1, 2], fun _ => []⟩).binfo 1 .FlowInferred =
      (([2, 1] : List BoundsKey).foldl
        (processKey (setTier emptyBInfo 3 .Declared (some (.Count 7)))
          (fun _ => [3]) (fun _ => []) false)
        ⟨emptyBInfo, [], [], [1, 2], fun _ => []⟩).binfo 1 .FlowInferred
    ∧ (1 ∈ (([1, 2] : List BoundsKey).foldl
        (processKey (setTier emptyBInfo 3 .Declared (some (.Count 7)))
          (fun _ => [3]) (fun _ => []) false)
        ⟨emptyBInfo, [], [], [1, 2], fun _ => []⟩).impossible ↔
      1 ∈ (([2, 1] : List BoundsKey).foldl
        (processKey (setTier emptyBInfo 3 .Declared (some (.Count 7)))
          (fun _ => [3]) (fun _ => []) false)
        ⟨emptyBInfo, [], [], [1, 2], fun _ => []⟩).impossible) := by
  obtain ⟨h1, h2⟩ :=
    inference_deterministic
      (setTier emptyBInfo 3 .Declared (some (.Count 7))) (fun _ => [3])
      (fun _ => []) false ⟨emptyBInfo, [], [], [1, 2], fun _ => []⟩
      [1, 2] [2, 1] (by decide) (by decide)
  exact ⟨h1 1 .FlowInferred, h2 1⟩

/-! ## Helper lemmas about the preferred-bound choice -/

theorem dom_trans (x y z : ABounds × Nat)
    (h1 : y.2 < x.2 ∨ (y.2 = x.2 ∧ x.1.refKey ≤ y.1.refKey))
    (h2 : z.2 < y.2 ∨ (z.2 = y.2 ∧ y.1.refKey ≤ z.1.refKey)) :
    z.2 < x.2 ∨ (z.2 = x.2 ∧ x.1.refKey ≤ z.1.refKey) := by
  rcases h1 with h1 | ⟨h1e, h1k⟩ <;> rcases h2 with h2 | ⟨h2e, h2k⟩
  · exact Or.inl (Nat.lt_trans h2 h1)
  · exact Or.inl (h2e ▸ h1)
  · exact Or.inl (h1e ▸ h2)
  · exact Or.inr ⟨h2e.trans h1e, Nat.le_trans h1k h2k⟩

theorem dom_of_not_beats (b c : ABounds × Nat)
    (h : ¬(b.2 < c.2 ∨ (b.2 = c.2 ∧ c.1.refKey < b.1.refKey))) :
    c.2 < b.2 ∨ (c.2 = b.2 ∧ b.1.refKey ≤ c.1.refKey) := by
  by_cases hlt : c.2 < b.2
  · exact Or.inl hlt
  · have hnb : ¬b.2 < c.2 := fun hh => h (Or.inl hh)
    have he : c.2 = b.2 :=
      Nat.le_antisymm (Nat.not_lt.mp hnb) (Nat.not_lt.mp hlt)
    have hnk : ¬c.1.refKey < b.1.refKey :=
      fun hh => h (Or.inr ⟨he.symm, hh⟩)
    exact Or.inr ⟨he, Nat.not_lt.mp hnk⟩

theorem pickBest_spec (l : List (ABounds × Nat)) :
    ∀ (acc : Option (ABounds × Nat)) (r : ABounds × Nat),
      l.foldl
        (fun best c =>
          match best with
          | none => some c
          | some b =>
            if b.2 < c.2 ∨ (b.2 = c.2 ∧ c.1.refKey < b.1.refKey) then some c
            else some b) acc = some r →
      (∀ c ∈ l, c.2 < r.2 ∨ (c.2 = r.2 ∧ r.1.refKey ≤ c.1.refKey))
      ∧ (∀ b, acc = some b →
          (b.2 < r.2 ∨ (b.2 = r.2 ∧ r.1.refKey ≤ b.1.refKey)))
      ∧ (r ∈ l ∨ acc = some r) := by
  induction l with
  | nil =>
    intro acc r h
    simp only [List.foldl_nil] at h
    refine ⟨by simp, ?_, Or.inr h⟩
    intro b hb
    rw [hb] at h
    obtain rfl : b = r := Option.some_injective _ h
    exact Or.inr ⟨rfl, Nat.le_refl _⟩
  | cons c l ih =>
    intro acc r h
    rw [List.foldl_cons] at h
    obtain ⟨ih1, ih2, ih3⟩ := ih _ r h
    cases acc with
    | none =>
      have hrc := ih2 c rfl
      refine ⟨?_, ?_, ?_⟩
      · intro d hd2
        rcases List.mem_cons.mp hd2 with rfl | hmem
        · exact hrc
        · exact ih1 d hmem
      · intro b hb
        exact absurd hb (by simp)
      · rcases ih3 with hm | hs
        · exact Or.inl (List.mem_cons_of_mem c hm)
        · obtain rfl : c = r := Option.some_injective _ hs
          exact Or.inl (List.mem_cons_self c l)
    | some b =>
      by_cases hb : b.2 < c.2 ∨ (b.2 = c.2 ∧ c.1.refKey < b.1.refKey)
      · have hsc :
            (match (some b : Option (ABounds × Nat)) with
             | none => some c
             | some bb =>
               if bb.2 < c.2 ∨ (bb.2 = c.2 ∧ c.1.refKey < bb.1.refKey)
               then some c else some bb) = some c := by
          show (if b.2 < c.2 ∨ (b.2 = c.2 ∧ c.1.refKey < b.1.refKey)
            then some c else some b) = some c
          rw [if_pos hb]
        have hrc := ih2 c hsc
        have hcb : b.2 < c.2 ∨ (b.2 = c.2 ∧ c.1.refKey ≤ b.1.refKey) := by
          rcases hb with hb1 | ⟨hbe, hbk⟩
          · exact Or.inl hb1
          · exact Or.inr ⟨hbe, Nat.le_of_lt hbk⟩
        have hrb := dom_trans r c b hrc hcb
        refine ⟨?_, ?_, ?_⟩
        · intro d hd2
          rcases List.mem_cons.mp hd2 with rfl | hmem
          · exact hrc
          · exact ih1 d hmem
        · intro b2 hb2
          obtain rfl : b = b2 := Option.some_injective _ hb2
          exact hrb
        · rcases ih3 with hm | hs
          · exact Or.inl (List.mem_cons_of_mem c hm)
          · rw [hsc] at hs
            obtain rfl : c = r := Option.some_injective _ hs
            exact Or.inl (List.mem_cons_self c l)
      · have hsb :
            (match (some b : Option (ABounds × Nat)) with
             | none => some c
             | some bb =>
               if bb.2 < c.2 ∨ (bb.2 = c.2 ∧ c.1.refKey < bb.1.refKey)
               then some c else some bb) = some b := by
          show (if b.2 < c.2 ∨ (b.2 = c.2 ∧ c.1.refKey < b.1.refKey)
            then some c else some b) = some b
          rw [if_neg hb]
        have hrb := ih2 b hsb
        have hrc := dom_trans r b c hrb (dom_of_not_beats b c hb)
        refine ⟨?_, ?_, ?_⟩
        · intro d hd2
          rcases List.mem_cons.mp hd2 with rfl | hmem
          · exact hrc
          · exact ih1 d hmem
        · intro b2 hb2
          obtain rfl : b = b2 := Option.some_injective _ hb2
          exact hrb
        · rcases ih3 with hm | hs
          · exact Or.inl (List.mem_cons_of_mem c hm)
          · rw [hsb] at hs
            exact Or.inr hs

theorem pickBest_isSome (l : List (ABounds × Nat)) :
    ∀ (b : ABounds × Nat),
      (l.foldl
        (fun best c =>
          match best with
          | none => some c
          | some bb =>
            if bb.2 < c.2 ∨ (bb.2 = c.2 ∧ c.1.refKey < bb.1.refKey)
            then some c else some bb) (some b)).isSome = true := by
  induction l with
  | nil => intro b; rfl
  | cons c l ih =>
    intro b
    rw [List.foldl_cons]
    by_cases hb : b.2 < c.2 ∨ (b.2 = c.2 ∧ c.1.refKey < b.1.refKey)
    · have hsc :
          (match (some b : Option (ABounds × Nat)) with
           | none => some c
           | some bb =>
             if bb.2 < c.2 ∨ (bb.2 = c.2 ∧ c.1.refKey < bb.1.refKey)
             then some c else some bb) = some c := by
        show (if b.2 < c.2 ∨ (b.2 = c.2 ∧ c.1.refKey < b.1.refKey)
          then some c else some b) = some c
        rw [if_pos hb]
      rw [hsc]
      exact ih c
    · have hsb :
          (match (some b : Option (ABounds × Nat)) with
           | none => some c
           | some bb =>
             if bb.2 < c.2 ∨ (bb.2 = c.2 ∧ c.1.refKey < bb.1.refKey)
             then some c else some bb) = some b := by
        show (if b.2 < c.2 ∨ (b.2 = c.2 ∧ c.1.refKey < b.1.refKey)
          then some c else some b) = some b
        rw [if_neg hb]
      rw [hsb]
      exact ih b

/-- C5: when several neighbours propose candidate bounds, the predicted
bound is one of the proposals, carries a vote count at least as large as
every proposal's, and among equally voted proposals its referenced key is
the smallest (i.e. earliest-registered, since key allocation is monotonic);
a non-empty proposal list always yields a prediction; and in the concrete
two-candidate tie with `a` registered before `b`, the prediction is `a`. -/
theorem getPreferredBound_majority (sugg : List ABounds) :
    (∀ c, predictBound sugg = some c →
      c ∈ sugg ∧ ∀ d ∈ sugg,
        sugg.count d < sugg.count c
        ∨ (sugg.count d = sugg.count c ∧ c.refKey ≤ d.refKey))
    ∧ (sugg ≠ [] → (predictBound sugg).isSome = true)
    ∧ (∀ a b : ABounds, a ≠ b → a.refKey < b.refKey →
        predictBound [a, b] = some a) := by
  refine ⟨?_, ?_, ?_⟩
  · intro c h
    unfold predictBound getPreferredBound at h
    rcases Option.map_eq_some'.mp h with ⟨p, hp, hpc⟩
    obtain ⟨s1, _, s3⟩ := pickBest_spec (countVotes sugg) none p hp
    have hpmem : p ∈ countVotes sugg := by
      rcases s3 with h' | h'
      · exact h'
      · exact absurd h' (by simp)
    obtain ⟨bb, hbbmem, hbbeq⟩ := List.mem_map.mp hpmem
    have hbc : bb = c := by rw [← hpc, ← hbbeq]
    have hp2 : p.2 = sugg.count c := by rw [← hbbeq, ← hbc]
    constructor
    · exact hbc ▸ List.mem_dedup.mp hbbmem
    · intro d hd
      have hdmem : (d, sugg.count d) ∈ countVotes sugg :=
        List.mem_map_of_mem _ (List.mem_dedup.mpr hd)
      have hdom := s1 (d, sugg.count d) hdmem
      rw [hp2, hpc] at hdom
      exact hdom
  · intro hne
    unfold predictBound getPreferredBound
    have hcv : countVotes sugg ≠ [] := by
      unfold countVotes
      simp [List.dedup_eq_nil, hne]
    obtain ⟨x, xs, hx⟩ := List.exists_cons_of_ne_nil hcv
    rw [hx, List.foldl_cons]
    have hs := pickBest_isSome xs x
    cases hfold : xs.foldl
        (fun best c =>
          match best with
          | none => some c
          | some bb =>
            if bb.2 < c.2 ∨ (bb.2 = c.2 ∧ c.1.refKey < bb.1.refKey)
            then some c else some bb) (some x) with
    | none => rw [hfold] at hs; exact absurd hs (by simp)
    | some y => simp [hfold]
  · intro a b hne hkey
    have hd : ([a, b] : List ABounds).dedup = [a, b] := by
      rw [List.dedup_cons_of_not_mem (by simp [hne]),
        List.dedup_cons_of_not_mem (by simp), List.dedup_nil]
    have hca : ([a, b] : List ABounds).count a = 1 := by
      simp [List.count_cons, hne]
    have hcb : ([a, b] : List ABounds).count b = 1 := by
      simp [List.count_cons, hne]
    have hnotlt : ¬b.refKey < a.refKey := Nat.not_lt.mpr (Nat.le_of_lt hkey)
    unfold predictBound getPreferredBound countVotes
    rw [hd]
    simp [hca, hcb, hnotlt]

/-- Witness for C5: with two proposals `Count 3` and `Count 5`, one vote
each and key 3 registered before key 5, the prediction is `Count 3`, which
is one of the proposals. -/
theorem getPreferredBound_majority_witness :
    predictBound [ABounds.Count 3, ABounds.Count 5] = some (ABounds.Count 3)
    ∧ ABounds.Count 3 ∈ [ABounds.Count 3, ABounds.Count 5] := by
  obtain ⟨c1, _, c3⟩ :=
    getPreferredBound_majority [ABounds.Count 3, ABounds.Count 5]
  have h := c3 (ABounds.Count 3) (ABounds.Count 5) (by decide) (by decide)
  exact ⟨h, (c1 (ABounds.Count 3) h).1⟩

/-- C8: error-handling split — requesting a bounds key for a declaration
kind that structurally cannot carry one is the only fatal outcome of the
`getVariable` family (embedded as `none`), `tryGetVariable` is the
non-fatal counterpart returning a found/not-found result, and a failed
inference for a pointer is never fatal: the key is recorded as data, ending
up either classified ImpossibleBounds or still in the needs-bound worklist
of the resulting state. -/
theorem error_handling_split :
    (∀ (s : RegState) (D : CDecl),
      (getVariableChecked s D = none ↔ isValidBoundVariable D = false))
    ∧ (∀ (s : RegState) (D : CDecl), isValidBoundVariable D = false →
        tryGetVariable s D = none)
    ∧ (∀ (s : RegState) (D : CDecl) (k : BoundsKey),
        tryGetVariable s D = some k → lookupDecl s D = some k)
    ∧ (∀ (g : AVGraph) (FromPB : Bool) (st : EngineState) (K : BoundsKey),
        st.arrPtrs.Nodup → K ∈ needsBound st →
        inferBoundsKey st.binfo g st.potBounds FromPB K = none →
        K ∈ (oneIteration g FromPB st).impossible
        ∨ K ∈ needsBound (oneIteration g FromPB st)) := by
  refine ⟨?_, ?_, ?_, ?_⟩
  · intro s D
    by_cases h : isValidBoundVariable D = true
    · simp [getVariableChecked, h]
    · simp [getVariableChecked, h]
  · intro s D h
    simp [tryGetVariable, h]
  · intro s D k h
    by_cases hv : isValidBoundVariable D = true
    · rw [tryGetVariable, if_pos hv] at h
      exact h
    · rw [tryGetVariable, if_neg hv] at h
      exact absurd h (by simp)
  · intro g FromPB st K hnd hK hinf
    by_cases hA : K ∈ st.arith
    · exact Or.inl ((oneIteration_impossible g FromPB st K).mpr
        (Or.inr ⟨hK, hinf, hA⟩))
    · refine Or.inr ?_
      obtain ⟨hmem, hflow, himp⟩ := (mem_needsBound st K).mp hK
      rw [mem_needsBound]
      refine ⟨by rw [oneIteration_arrPtrs]; exact hmem, ?_, ?_⟩
      · rw [oneIteration_binfo, hasFlowOrHigher_keepHighest]
        have hwl : (needsBound st).Nodup := hnd.filter _
        cases hq : hasFlowOrHigher
            (((needsBound st).foldl
              (processKey st.binfo g st.potBounds FromPB) st).binfo) K with
        | false => rfl
        | true =>
          simp only [hasFlowOrHigher, List.any_eq_true] at hq
          obtain ⟨P, hP, hsome⟩ := hq
          rw [foldl_processKey_binfo st.binfo g st.potBounds FromPB
            (needsBound st) st hwl K P, if_neg (by
              intro hc
              rw [hinf] at hc
              exact absurd hc.2.2 (by simp))] at hsome
          have htrue : hasFlowOrHigher st.binfo K = true := by
            simp only [hasFlowOrHigher, List.any_eq_true]
            exact ⟨P, hP, hsome⟩
          rw [htrue] at hflow
          exact absurd hflow (by simp)
      · intro hm
        rcases (oneIteration_impossible g FromPB st K).mp hm with h | h
        · exact himp h
        · exact hA h.2.2

/-- Witness for C8: the `otherDecl` kind is fatal for `getVariableChecked`
but merely "not found" for `tryGetVariable`; a registered variable is found
by `tryGetVariable`; and key 1, failing inference in a state with no
neighbours and no recorded arithmetic, simply remains in the needs-bound
worklist. -/
theorem error_handling_split_witness :
    getVariableChecked initRegState (CDecl.otherDecl ("a.c", 1, 1)) = none
    ∧ tryGetVariable initRegState (CDecl.otherDecl ("a.c", 1, 1)) = none
    ∧ lookupDecl ⟨7, [(("b.c", 1, 1), 3)], [], []⟩
        (CDecl.varDecl ("b.c", 1, 1)) = some 3
    ∧ (1 ∈ (oneIteration (fun _ => []) false
          ⟨emptyBInfo, [], [], [1], fun _ => []⟩).impossible
        ∨ 1 ∈ needsBound (oneIteration (fun _ => []) false
          ⟨emptyBInfo, [], [], [1], fun _ => []⟩)) := by
  obtain ⟨c1, c2, c3, c4⟩ := error_handling_split
  exact ⟨(c1 initRegState (CDecl.otherDecl ("a.c", 1, 1))).mpr rfl,
    c2 initRegState (CDecl.otherDecl ("a.c", 1, 1)) rfl,
    c3 ⟨7, [(("b.c", 1, 1), 3)], [], []⟩ (CDecl.varDecl ("b.c", 1, 1)) 3
      rfl,
    c4 (fun _ => []) false ⟨emptyBInfo, [], [], [1], fun _ => []⟩ 1
      (by decide) (by decide) rfl⟩
